import Mathlib

/-!
Verification development for the `task` repository: a shallow embedding of
the persistence and mutation core (task entity, JSON codec, id generator,
store operations) together with theorems checking the specification's
claims against it.

Conventions of the embedding:
* Go `time.Time` values are modelled at UTC second + nanosecond
  granularity (`Time`).  `time.Time.Format(time.RFC3339)` is modelled by
  `fmtTime`, an injective second-granularity rendering of the epoch-second
  count that, like RFC3339 rendering, drops the nanosecond component;
  `parseTimeStr` models `time.Parse(time.RFC3339, _)` as its partial
  inverse, failing on malformed input.
* Go strings are Lean `String`s; the string-backed enums `model.Status`
  and `model.TaskType` are `String`s with validity predicates, exactly as
  in `task.go` where any string value can inhabit them.
* JSON documents are modelled by the `Json` inductive; `encoding/json` is
  modelled by an executable renderer (`renderIndentJson`, mirroring
  `json.MarshalIndent(v, "", "  ")`) and an executable fuel-based parser
  (`parseValue`), plus per-type decode functions following the struct
  tags and custom `MarshalJSON`/`UnmarshalJSON` of `internal/model`.
-/

/-- Digit characters for decimal rendering. -/
def digitToChar (d : Nat) : Char :=
  match d with
  | 0 => '0' | 1 => '1' | 2 => '2' | 3 => '3' | 4 => '4'
  | 5 => '5' | 6 => '6' | 7 => '7' | 8 => '8' | _ => '9'

/-- Partial inverse of `digitToChar`: the value of a decimal digit
character, computed from its code point. -/
def charToDigit (c : Char) : Option Nat :=
  if c.isDigit then some (c.toNat - 48) else none

/-- Little-endian decimal digits of `n`, with structural fuel so that it
evaluates by kernel reduction. -/
def natToDigitsLE (fuel n : Nat) : List Char :=
  match fuel, n with
  | 0, _ => []
  | _ + 1, 0 => []
  | fuel + 1, n + 1 => digitToChar ((n + 1) % 10) :: natToDigitsLE fuel ((n + 1) / 10)

/-- Decimal rendering of a natural number. -/
def natToString (n : Nat) : String :=
  if n = 0 then "0" else String.mk (natToDigitsLE n n).reverse

/-- Accumulating decimal parser over a character list. -/
def parseDigitsAcc : List Char → Nat → Option Nat
  | [], acc => some acc
  | c :: cs, acc =>
    match charToDigit c with
    | some d => parseDigitsAcc cs (acc * 10 + d)
    | none => none

/-- Decimal parser for strings; fails on the empty string and on any
non-digit character. -/
def parseNatStr (s : String) : Option Nat :=
  match s.data with
  | [] => none
  | cs => parseDigitsAcc cs 0

/-- Model of Go `time.Time` restricted to what the repository uses:
a UTC instant with second and (in-memory only) nanosecond components. -/
structure Time where
  sec : Nat
  nsec : Nat
deriving DecidableEq, Repr

/-- Model of `time.Time.After`: strict lexicographic comparison. -/
def timeAfter (a b : Time) : Bool :=
  decide (b.sec < a.sec) || (a.sec == b.sec && decide (b.nsec < a.nsec))

/-- Model of `t.Format(time.RFC3339)`: the injective second-granularity
rendering of the instant, dropping the nanosecond component (exactly the
information RFC3339 rendering keeps at second precision). -/
def fmtTime (t : Time) : String :=
  natToString t.sec

/-- Model of `time.Parse(time.RFC3339, s)`: partial inverse of `fmtTime`;
a successfully parsed instant has no sub-second component. -/
def parseTimeStr (s : String) : Option Time :=
  (parseNatStr s).map (fun n => ⟨n, 0⟩)

/-! ## Task entity (src/internal/model/task.go) -/

namespace model

/-- `model.Status` is a Go string type; any string inhabits it. -/
abbrev Status := String

/-- `model.TaskType` is a Go string type; any string inhabits it. -/
abbrev TaskType := String

/-- `Status.IsValid` (task.go lines 26-32). -/
def statusIsValid (s : Status) : Bool :=
  s == "todo" || s == "progress" || s == "blocked" || s == "abandon" || s == "done"

/-- `TaskType.IsValid` (task.go lines 63-69). -/
def taskTypeIsValid (t : TaskType) : Bool :=
  t == "task" || t == "bug" || t == "feature"

/-- `model.Note` (task.go lines 86-90). -/
structure Note where
  id : String
  createdAt : Time
  content : String
deriving DecidableEq, Repr

/-- `model.Task` (task.go lines 93-103).  `description` is `*string` in Go,
hence `Option String` here; `labels` and `notes` are slices.  The store and
entity normalize them away from nil, so the embedding uses plain lists. -/
structure Task where
  id : String
  createdAt : Time
  updatedAt : Time
  title : String
  description : Option String
  type : TaskType
  status : Status
  labels : List String
  notes : List Note
deriving DecidableEq, Repr

/-- `model.NewTask` (task.go lines 106-118); `now` is the injected clock
value standing for `time.Now().UTC()`. -/
def newTask (id title : String) (taskType : TaskType) (now : Time) : Task :=
  { id := id
    createdAt := now
    updatedAt := now
    title := title
    description := none
    type := taskType
    status := "todo"
    labels := []
    notes := [] }

/-- `Task.SetDescription` (task.go lines 121-124). -/
def Task.setDescription (t : Task) (desc : String) (now : Time) : Task :=
  { t with description := some desc, updatedAt := now }

/-- `Task.AddLabel` (task.go lines 127-135): appends only if the label is
not already present, and only then refreshes `updated_at`. -/
def Task.addLabel (t : Task) (label : String) (now : Time) : Task :=
  if t.labels.contains label then t
  else { t with labels := t.labels ++ [label], updatedAt := now }

/-- `Task.SetLabels` (task.go lines 138-141): full replacement. -/
def Task.setLabels (t : Task) (labels : List String) (now : Time) : Task :=
  { t with labels := labels, updatedAt := now }

/-- `Task.SetStatus` (task.go lines 144-151): the pair is the post-call
task together with the returned error (`none` on success). -/
def Task.setStatus (t : Task) (status : Status) (now : Time) : Task × Option String :=
  if statusIsValid status then
    ({ t with status := status, updatedAt := now }, none)
  else
    (t, some ("invalid status: " ++ status))

/-- `Task.SetType` (task.go lines 154-161). -/
def Task.setType (t : Task) (taskType : TaskType) (now : Time) : Task × Option String :=
  if taskTypeIsValid taskType then
    ({ t with type := taskType, updatedAt := now }, none)
  else
    (t, some ("invalid type: " ++ taskType))

/-- `Task.SetTitle` (task.go lines 164-167). -/
def Task.setTitle (t : Task) (title : String) (now : Time) : Task :=
  { t with title := title, updatedAt := now }

/-- `Task.AddNote` (task.go lines 170-178): appends an immutable note and
refreshes `updated_at`; both timestamps come from the injected clock. -/
def Task.addNote (t : Task) (noteID content : String) (now : Time) : Task :=
  { t with notes := t.notes ++ [{ id := noteID, createdAt := now, content := content }]
           updatedAt := now }

/-- `Task.HasLabel` (task.go lines 181-188). -/
def Task.hasLabel (t : Task) (label : String) : Bool :=
  t.labels.contains label

/-- One mutator call on a task, with its injected clock value. -/
inductive Mut where
  | setTitle (title : String) (now : Time)
  | setDescription (desc : String) (now : Time)
  | addLabel (label : String) (now : Time)
  | setLabels (labels : List String) (now : Time)
  | setStatus (status : Status) (now : Time)
  | setType (taskType : TaskType) (now : Time)
  | addNote (noteID content : String) (now : Time)
deriving Repr

/-- Apply one mutator; a rejected `setStatus`/`setType` leaves the task
unchanged, exactly as the Go methods do on error. -/
def applyMut (t : Task) : Mut → Task
  | .setTitle title now => t.setTitle title now
  | .setDescription desc now => t.setDescription desc now
  | .addLabel label now => t.addLabel label now
  | .setLabels labels now => t.setLabels labels now
  | .setStatus status now => (t.setStatus status now).1
  | .setType taskType now => (t.setType taskType now).1
  | .addNote noteID content now => t.addNote noteID content now

/-- Apply a sequence of mutator calls. -/
def applyMuts (t : Task) (ms : List Mut) : Task :=
  ms.foldl applyMut t

end model

/-! ## JSON documents (model of `encoding/json` values) -/

/-- A JSON document.  Numbers are kept as raw tokens: the task wire format
never contains a number, so their value is never inspected. -/
inductive Json where
  | null
  | bool (b : Bool)
  | num (raw : String)
  | str (s : String)
  | arr (items : List Json)
  | obj (fields : List (String × Json))

/-- Object field lookup with Go `encoding/json` semantics: for duplicate
keys the last occurrence wins. -/
def jLookupLast : List (String × Json) → String → Option Json
  | [], _ => none
  | (k, v) :: rest, key =>
    match jLookupLast rest key with
    | some r => some r
    | none => if k = key then some v else none

/-- Decoding a JSON value into a Go `string` struct field: JSON `null` is a
no-op that keeps the zero value `""`; a missing key (surfaced as `none` by
the caller) behaves the same way; any non-string value is a type error. -/
def getStrField (fields : List (String × Json)) (key : String) : Except String String :=
  match jLookupLast fields key with
  | none => Except.ok ""
  | some Json.null => Except.ok ""
  | some (Json.str s) => Except.ok s
  | some _ => Except.error ("cannot unmarshal field " ++ key)

/-- Decoding `description` (`*string`): `null` and a missing key give the
nil pointer, a string gives a present value. -/
def getDescField (fields : List (String × Json)) : Except String (Option String) :=
  match jLookupLast fields "description" with
  | none => Except.ok none
  | some Json.null => Except.ok none
  | some (Json.str s) => Except.ok (some s)
  | some _ => Except.error "cannot unmarshal field description"

/-- Decoding a `[]string` element list. -/
def decodeStrList : List Json → Except String (List String)
  | [] => Except.ok []
  | Json.str s :: rest =>
    match decodeStrList rest with
    | Except.ok ss => Except.ok (s :: ss)
    | Except.error e => Except.error e
  | _ :: _ => Except.error "cannot unmarshal labels element"

/-- Decoding the `labels` field: `null` or a missing key give the nil
slice, which `UnmarshalJSON` then normalizes to the empty slice. -/
def getLabelsField (fields : List (String × Json)) : Except String (List String) :=
  match jLookupLast fields "labels" with
  | none => Except.ok []
  | some Json.null => Except.ok []
  | some (Json.arr xs) => decodeStrList xs
  | some _ => Except.error "cannot unmarshal field labels"

/-- `time.Parse` lifted into the decode error channel, with the wrapping
message used by `Task.UnmarshalJSON`/`Note.UnmarshalJSON`. -/
def parseTimeField (s msg : String) : Except String Time :=
  match parseTimeStr s with
  | some t => Except.ok t
  | none => Except.error msg

/-- `Note.MarshalJSON` (task.go lines 237-246): `created_at` rendered as an
RFC3339 string followed by the alias fields. -/
def encodeNote (n : model.Note) : Json :=
  Json.obj [("created_at", Json.str (fmtTime n.createdAt)),
            ("id", Json.str n.id),
            ("content", Json.str n.content)]

/-- Field part of `Note.UnmarshalJSON` (task.go lines 249-266). -/
def decodeNoteFields (fields : List (String × Json)) : Except String model.Note :=
  (getStrField fields "id").bind fun idv =>
  (getStrField fields "content").bind fun content =>
  (getStrField fields "created_at").bind fun createdS =>
  (parseTimeField createdS "parsing created_at").bind fun created =>
  Except.ok { id := idv, createdAt := created, content := content }

/-- `Note.UnmarshalJSON`: a JSON `null` leaves the aux struct at its zero
value, so the `created_at` parse fails exactly as for an empty object. -/
def decodeNote : Json → Except String model.Note
  | Json.obj fields => decodeNoteFields fields
  | Json.null => decodeNoteFields []
  | _ => Except.error "cannot unmarshal into Note"

/-- Decoding a `[]Note` element list. -/
def decodeNoteList : List Json → Except String (List model.Note)
  | [] => Except.ok []
  | j :: rest =>
    match decodeNote j with
    | Except.error e => Except.error e
    | Except.ok n =>
      match decodeNoteList rest with
      | Except.ok ns => Except.ok (n :: ns)
      | Except.error e => Except.error e

/-- Decoding the `notes` field: `null`/missing give the nil slice, which
`UnmarshalJSON` then normalizes to the empty slice. -/
def getNotesField (fields : List (String × Json)) : Except String (List model.Note) :=
  match jLookupLast fields "notes" with
  | none => Except.ok []
  | some Json.null => Except.ok []
  | some (Json.arr xs) => decodeNoteList xs
  | some _ => Except.error "cannot unmarshal field notes"

/-- `Task.MarshalJSON` (task.go lines 191-202): the two timestamp strings
shadow the alias timestamps; remaining fields follow struct order and the
struct tags of `model.Task`. -/
def encodeTask (t : model.Task) : Json :=
  Json.obj [("created_at", Json.str (fmtTime t.createdAt)),
            ("updated_at", Json.str (fmtTime t.updatedAt)),
            ("id", Json.str t.id),
            ("title", Json.str t.title),
            ("description", match t.description with
                            | some d => Json.str d
                            | none => Json.null),
            ("type", Json.str t.type),
            ("status", Json.str t.status),
            ("labels", Json.arr (t.labels.map Json.str)),
            ("notes", Json.arr (t.notes.map encodeNote))]

/-- Field part of `Task.UnmarshalJSON` (task.go lines 205-234): decode the
aux struct (type errors first), then parse `created_at` and `updated_at`,
then normalize nil `labels`/`notes` to empty slices (done here by
`getLabelsField`/`getNotesField` returning `[]` for `null`/missing). -/
def decodeTaskFields (fields : List (String × Json)) : Except String model.Task :=
  (getStrField fields "id").bind fun idv =>
  (getStrField fields "title").bind fun title =>
  (getDescField fields).bind fun desc =>
  (getStrField fields "type").bind fun ty =>
  (getStrField fields "status").bind fun st =>
  (getLabelsField fields).bind fun labels =>
  (getNotesField fields).bind fun notes =>
  (getStrField fields "created_at").bind fun createdS =>
  (getStrField fields "updated_at").bind fun updatedS =>
  (parseTimeField createdS "parsing created_at").bind fun created =>
  (parseTimeField updatedS "parsing updated_at").bind fun updated =>
  Except.ok { id := idv, createdAt := created, updatedAt := updated, title := title,
              description := desc, type := ty, status := st,
              labels := labels, notes := notes }

/-- `Task.UnmarshalJSON`: JSON `null` into a struct is a no-op, leaving the
zero aux value, so it fails at the `created_at` parse like an empty object;
any other non-object is a type error. -/
def decodeTask : Json → Except String model.Task
  | Json.obj fields => decodeTaskFields fields
  | Json.null => decodeTaskFields []
  | _ => Except.error "cannot unmarshal into Task"

/-- Second-granularity truncation of an instant: what surviving a
format/parse round trip leaves of a timestamp. -/
def truncTime (t : Time) : Time :=
  ⟨t.sec, 0⟩

/-- A note after its timestamps survive a wire round trip. -/
def truncNote (n : model.Note) : model.Note :=
  { n with createdAt := truncTime n.createdAt }

/-- A task after its timestamps survive a wire round trip. -/
def truncTask (t : model.Task) : model.Task :=
  { t with createdAt := truncTime t.createdAt,
           updatedAt := truncTime t.updatedAt,
           notes := t.notes.map truncNote }

/-- Equality at second granularity for instants. -/
def timeEqSec (a b : Time) : Bool :=
  a.sec == b.sec

/-- Field-wise note equality, timestamps at second granularity. -/
def noteEqSec (a b : model.Note) : Bool :=
  a.id == b.id && timeEqSec a.createdAt b.createdAt && a.content == b.content

/-- Pointwise note-list equality, timestamps at second granularity. -/
def noteListEqSec : List model.Note → List model.Note → Bool
  | [], [] => true
  | a :: as, b :: bs => noteEqSec a b && noteListEqSec as bs
  | _, _ => false

/-- Field-wise task equality, timestamps at second granularity: every
field is compared exactly, timestamps by their second component. -/
def taskEqSec (a b : model.Task) : Bool :=
  a.id == b.id && timeEqSec a.createdAt b.createdAt
    && timeEqSec a.updatedAt b.updatedAt && a.title == b.title
    && a.description == b.description && a.type == b.type && a.status == b.status
    && a.labels == b.labels && noteListEqSec a.notes b.notes

/-! ## JSON rendering (model of `json.MarshalIndent(v, "", "  ")`) -/

/-- Hexadecimal digit characters for `\uXXXX` escapes. -/
def hexChar (n : Nat) : Char :=
  match n with
  | 10 => 'a' | 11 => 'b' | 12 => 'c' | 13 => 'd' | 14 => 'e' | 15 => 'f'
  | m => digitToChar m

/-- Go `encoding/json` string escaping for one character: quotes,
backslash, the common control characters, the HTML-escaped `<`/`>`/`&`,
and `\u00XX` for the remaining control characters. -/
def escapeChar (c : Char) : String :=
  if c = '\"' then "\\\""
  else if c = '\\' then "\\\\"
  else if c = '\n' then "\\n"
  else if c = '\r' then "\\r"
  else if c = '\t' then "\\t"
  else if c = '<' then "\\u003c"
  else if c = '>' then "\\u003e"
  else if c = '&' then "\\u0026"
  else if c.toNat < 32 then
    "\\u00" ++ String.mk [hexChar (c.toNat / 16), hexChar (c.toNat % 16)]
  else String.mk [c]

/-- Render a JSON string literal. -/
def renderString (s : String) : String :=
  "\"" ++ String.join (s.data.map escapeChar) ++ "\""

/-- `prefix ++ indent` repetition used by `MarshalIndent` with prefix `""`
and indent `"  "`. -/
def indentStr (d : Nat) : String :=
  String.mk (List.replicate (2 * d) ' ')

mutual

/-- Pretty rendering at nesting depth `d`, matching the byte output of
`json.MarshalIndent(v, "", "  ")`: every array element and object member
on its own line, `": "` after keys, empty composites rendered inline.  The
`fuel` argument only makes the nested recursion structural; any call with
`fuel` at least the document's nesting depth renders fully (task-collection
documents have depth at most 5). -/
def renderIndentJson : Nat → Json → Nat → String
  | _, Json.null, _ => "null"
  | _, Json.bool b, _ => if b then "true" else "false"
  | _, Json.num raw, _ => raw
  | _, Json.str s, _ => renderString s
  | _, Json.arr [], _ => "[]"
  | 0, Json.arr (_ :: _), _ => ""
  | fuel + 1, Json.arr (j :: js), d =>
    "[\n" ++ renderIndentItems fuel (j :: js) (d + 1) ++ "\n" ++ indentStr d ++ "]"
  | _, Json.obj [], _ => "\x7b\x7d"
  | 0, Json.obj (_ :: _), _ => ""
  | fuel + 1, Json.obj (f :: fs), d =>
    "\x7b\n" ++ renderIndentFields fuel (f :: fs) (d + 1) ++ "\n" ++ indentStr d ++ "\x7d"

/-- Array elements, one per line, comma-separated. -/
def renderIndentItems : Nat → List Json → Nat → String
  | _, [], _ => ""
  | fuel, [j], d => indentStr d ++ renderIndentJson fuel j d
  | fuel, j :: j2 :: js, d =>
    indentStr d ++ renderIndentJson fuel j d ++ ",\n" ++ renderIndentItems fuel (j2 :: js) d

/-- Object members, one per line, comma-separated. -/
def renderIndentFields : Nat → List (String × Json) → Nat → String
  | _, [], _ => ""
  | fuel, [(k, v)], d => indentStr d ++ renderString k ++ ": " ++ renderIndentJson fuel v d
  | fuel, (k, v) :: f :: fs, d =>
    indentStr d ++ renderString k ++ ": " ++ renderIndentJson fuel v d ++ ",\n"
      ++ renderIndentFields fuel (f :: fs) d

end

/-! ## JSON parsing (model of the `encoding/json` scanner in `json.Unmarshal`) -/

/-- Skip JSON whitespace (space, tab, newline, carriage return). -/
def skipWs : List Char → List Char
  | [] => []
  | c :: cs => if c = ' ' || c = '\t' || c = '\n' || c = '\r' then skipWs cs else c :: cs

/-- Single-character escape sequences of JSON strings. -/
def escChar (e : Char) : Option Char :=
  match e with
  | '\"' => some '\"'
  | '\\' => some '\\'
  | '/' => some '/'
  | 'n' => some '\n'
  | 't' => some '\t'
  | 'r' => some '\r'
  | 'b' => some '\x08'
  | 'f' => some '\x0c'
  | _ => none

/-- Hexadecimal digit value, for `\uXXXX` escapes: a decimal digit keeps
its value, a letter `a`-`f` or `A`-`F` maps to 10-15 via its code point. -/
def hexVal (c : Char) : Option Nat :=
  match charToDigit c with
  | some d => some d
  | none =>
    if 97 ≤ c.toNat && c.toNat ≤ 102 then some (c.toNat - 87)
    else if 65 ≤ c.toNat && c.toNat ≤ 70 then some (c.toNat - 55)
    else none

/-- Parse the body of a JSON string after the opening quote, returning the
decoded characters and the input after the closing quote. -/
def parseStringBody : List Char → Option (List Char × List Char)
  | [] => none
  | '\"' :: rest => some ([], rest)
  | '\\' :: rest =>
    match rest with
    | [] => none
    | e :: rest2 =>
      match escChar e with
      | some c => (parseStringBody rest2).map (fun p => (c :: p.1, p.2))
      | none =>
        if e = 'u' then
          match rest2 with
          | h1 :: h2 :: h3 :: h4 :: rest3 =>
            match hexVal h1, hexVal h2, hexVal h3, hexVal h4 with
            | some a, some b, some c, some d =>
              (parseStringBody rest3).map
                (fun p => (Char.ofNat (((a * 16 + b) * 16 + c) * 16 + d) :: p.1, p.2))
            | _, _, _, _ => none
          | _ => none
        else none
  | c :: rest => (parseStringBody rest).map (fun p => (c :: p.1, p.2))

/-- Take the maximal run of number-token characters (a permissive model of
the JSON number grammar; the task wire format contains no numbers). -/
def spanNumber : List Char → List Char × List Char
  | [] => ([], [])
  | c :: cs =>
    if c.isDigit || c = '-' || c = '+' || c = '.' || c = 'e' || c = 'E' then
      ((spanNumber cs).1.cons c, (spanNumber cs).2)
    else ([], c :: cs)

mutual

/-- Parse one JSON value; `fuel` makes the recursion structural and any
value of it at least twice the input length suffices. -/
def parseValue : Nat → List Char → Option (Json × List Char)
  | 0, _ => none
  | fuel + 1, cs =>
    match skipWs cs with
    | 'n' :: 'u' :: 'l' :: 'l' :: rest => some (Json.null, rest)
    | 't' :: 'r' :: 'u' :: 'e' :: rest => some (Json.bool true, rest)
    | 'f' :: 'a' :: 'l' :: 's' :: 'e' :: rest => some (Json.bool false, rest)
    | '\"' :: rest => (parseStringBody rest).map (fun p => (Json.str (String.mk p.1), p.2))
    | '[' :: rest =>
      match skipWs rest with
      | ']' :: rest2 => some (Json.arr [], rest2)
      | cs2 => parseItems fuel cs2 []
    | '\x7b' :: rest =>
      match skipWs rest with
      | '\x7d' :: rest2 => some (Json.obj [], rest2)
      | cs2 => parseFields fuel cs2 []
    | c :: rest =>
      if c.isDigit || c = '-' then
        some (Json.num (String.mk ((spanNumber (c :: rest)).1)), (spanNumber (c :: rest)).2)
      else none
    | [] => none

/-- Parse the remaining elements of a non-empty array. -/
def parseItems : Nat → List Char → List Json → Option (Json × List Char)
  | 0, _, _ => none
  | fuel + 1, cs, acc =>
    match parseValue fuel cs with
    | none => none
    | some (v, rest) =>
      match skipWs rest with
      | ',' :: rest2 => parseItems fuel rest2 (acc ++ [v])
      | ']' :: rest2 => some (Json.arr (acc ++ [v]), rest2)
      | _ => none

/-- Parse the remaining members of a non-empty object. -/
def parseFields : Nat → List Char → List (String × Json) → Option (Json × List Char)
  | 0, _, _ => none
  | fuel + 1, cs, acc =>
    match skipWs cs with
    | '\"' :: rest =>
      match parseStringBody rest with
      | none => none
      | some (key, rest2) =>
        match skipWs rest2 with
        | ':' :: rest3 =>
          match parseValue fuel rest3 with
          | none => none
          | some (v, rest4) =>
            match skipWs rest4 with
            | ',' :: rest5 => parseFields fuel rest5 (acc ++ [(String.mk key, v)])
            | '\x7d' :: rest5 => some (Json.obj (acc ++ [(String.mk key, v)]), rest5)
            | _ => none
        | _ => none
    | _ => none

end

/-- `json.Unmarshal`'s outer contract on raw bytes: exactly one JSON value
with only trailing whitespace. -/
def parseJsonValue (s : String) : Option Json :=
  match parseValue (2 * s.length + 2) s.data with
  | some (j, rest) => if skipWs rest = [] then some j else none
  | none => none

/-! ## Persistence store (store.go) -/

namespace store

/-- `Store.Save` (store.go lines 137-148) serializes the whole collection
with `json.MarshalIndent(tasks, "", "  ")`; this is the exact byte content
written to `.task/task.json`.  Fuel 12 exceeds the fixed nesting depth of
any task-collection document (array, task object, notes array, note
object, scalar). -/
def marshalIndentTasks (ts : List model.Task) : String :=
  renderIndentJson 12 (Json.arr (ts.map encodeTask)) 0

/-- `Store.Init` (store.go lines 79-100) creates `.task/` and then writes
`Save([]model.Task{})`; this is the file content a fresh `init` leaves. -/
def initFileContent : String :=
  marshalIndentTasks []

/-- Decoding a `[]model.Task` element list. -/
def decodeTaskList : List Json → Except String (List model.Task)
  | [] => Except.ok []
  | j :: rest =>
    match decodeTask j with
    | Except.error e => Except.error e
    | Except.ok t =>
      match decodeTaskList rest with
      | Except.ok ts => Except.ok (t :: ts)
      | Except.error e => Except.error e

/-- `json.Unmarshal(data, &tasks)` for `tasks : []model.Task` applied to an
already-scanned document: `null` leaves the nil slice (zero tasks), an
array decodes element-wise, anything else is a type error. -/
def unmarshalTasks : Json → Except String (List model.Task)
  | Json.null => Except.ok []
  | Json.arr xs => decodeTaskList xs
  | _ => Except.error "cannot unmarshal into []Task"

/-- The normalization loop of `Store.Load` (store.go lines 124-131): it
replaces nil `Labels`/`Notes` slices by empty ones.  The embedding
represents slices as lists, where `decodeTask` already yields `[]` for
nil, so the loop is the identity on the embedded state. -/
def ensureNonNilSlices (ts : List model.Task) : List model.Task :=
  ts

/-- `Store.Load` (store.go lines 109-134) on the raw file content: scan
the bytes as one JSON document, unmarshal as a task slice, normalize.
Any scan or decode failure is wrapped as a task-file parse error. -/
def loadTasks (content : String) : Except String (List model.Task) :=
  match parseJsonValue content with
  | none => Except.error "parsing task file: invalid JSON"
  | some j =>
    match unmarshalTasks j with
    | Except.error e => Except.error ("parsing task file: " ++ e)
    | Except.ok ts => Except.ok (ensureNonNilSlices ts)

/-- `Store.Add` (store.go lines 167-175) between its `Load` and `Save`:
append the new task to the collection. -/
def addTask (ts : List model.Task) (t : model.Task) : List model.Task :=
  ts ++ [t]

/-- The scan of `Store.Update` (store.go lines 184-191): replace the first
task whose `ID` matches and stop; `none` when no entry matches. -/
def replaceFirst (task : model.Task) : List model.Task → Option (List model.Task)
  | [] => none
  | t :: ts =>
    if t.id == task.id then some (task :: ts)
    else (replaceFirst task ts).map (fun ts2 => t :: ts2)

/-- `Store.Update` (store.go lines 178-198) between `Load` and `Save`. -/
def updateTask (task : model.Task) (ts : List model.Task) : Except String (List model.Task) :=
  match replaceFirst task ts with
  | some ts2 => Except.ok ts2
  | none => Except.error ("task not found: " ++ task.id)

/-- The scan of `Store.Delete` (store.go lines 270-278): drop every task
whose `ID` matches, remember whether any matched, keep the rest in
order. -/
def deleteScan (id : String) : List model.Task → Bool × List model.Task
  | [] => (false, [])
  | t :: ts =>
    let r := deleteScan id ts
    if t.id == id then (true, r.2) else (r.1, t :: r.2)

/-- `Store.Delete` (store.go lines 264-285) between `Load` and `Save`. -/
def deleteTask (id : String) (ts : List model.Task) : Except String (List model.Task) :=
  let r := deleteScan id ts
  if r.1 then Except.ok r.2 else Except.error ("task not found: " ++ id)

/-- A closed task: status `done` or `abandon` (store.go line 299). -/
def isClosed (t : model.Task) : Bool :=
  t.status == "done" || t.status == "abandon"

/-- The scan of `Store.Clean` (store.go lines 296-304): count the closed
tasks and keep the others in order. -/
def cleanScan : List model.Task → Nat × List model.Task
  | [] => (0, [])
  | t :: ts =>
    let r := cleanScan ts
    if isClosed t then (r.1 + 1, r.2) else (r.1, t :: r.2)

/-- `Store.Clean` (store.go lines 290-311): the count returned, the stored
collection afterwards, and whether a `Save` was performed — when nothing
was removed the method returns `0` without writing, leaving the stored
collection as it was. -/
def cleanTasks (ts : List model.Task) : Nat × List model.Task × Bool :=
  let r := cleanScan ts
  if r.1 = 0 then (0, ts, false) else (r.1, r.2, true)

/-- `Store.GetExistingIDs` (store.go lines 201-212): the key set of the
returned `map[string]bool`, as the list of stored ids (membership models
the map lookup). -/
def getExistingIDs (ts : List model.Task) : List String :=
  ts.map model.Task.id

/-- Insertion step for the descending-by-`updated_at` ordering used by
`Store.ListSorted`. -/
def insertByUpdated (t : model.Task) : List model.Task → List model.Task
  | [] => [t]
  | u :: us =>
    if timeAfter t.updatedAt u.updatedAt then t :: u :: us
    else u :: insertByUpdated t us

/-- `Store.ListSorted` (store.go lines 215-226): `sort.Slice` with
`less i j = tasks[i].UpdatedAt.After(tasks[j].UpdatedAt)`, i.e. sorted
descending by `updated_at`; modelled by insertion sort over the same
comparator (Go's sort is unstable, so any order consistent with the
comparator is a faithful model). -/
def listSorted (ts : List model.Task) : List model.Task :=
  ts.foldr insertByUpdated []

/-- `store.Filter` (store.go lines 229-233). -/
structure Filter where
  status : Option model.Status
  type : Option model.TaskType
  label : Option String

/-- The conjunction of the three `continue` tests in `ListFiltered`
(store.go lines 248-256): a present criterion must match, an absent one
constrains nothing. -/
def matchesFilter (f : Filter) (t : model.Task) : Bool :=
  (match f.status with
   | none => true
   | some s => t.status == s)
  && (match f.type with
      | none => true
      | some ty => t.type == ty)
  && (match f.label with
      | none => true
      | some l => t.hasLabel l)

/-- `Store.ListFiltered` (store.go lines 236-261): sort, return everything
when no criterion is present, otherwise keep exactly the matching tasks in
order. -/
def listFiltered (f : Filter) (ts : List model.Task) : List model.Task :=
  let sorted := listSorted ts
  if f.status.isNone && f.type.isNone && f.label.isNone then sorted
  else sorted.filter (matchesFilter f)

end store

/-! ## Identifier generation (src/internal/id/id.go) -/

/-- The attempt loop of `id.GenerateUnique` (id.go lines 28-36):
`draws i` is the result of the `i`-th `Generate()` call (one possible
outcome of the random source), `existing.contains` models the
`map[string]bool` lookup, and `remaining` counts attempts left out of the
100 allowed. -/
def generateUniqueLoop (existing : List String) (draws : Nat → String) (fallback : String) :
    Nat → Nat → String
  | _, 0 => fallback
  | i, remaining + 1 =>
    if existing.contains (draws i) then
      generateUniqueLoop existing draws fallback (i + 1) remaining
    else draws i

/-- `id.GenerateUnique` (id.go lines 26-39): 100 attempts drawn from the
random source; if every attempt collides with `existing`, fall back to one
4-character `generateWithLength(4)` draw (`fallback`) returned without any
re-check against `existing`. -/
def generateUnique (existing : List String) (draws : Nat → String) (fallback : String) : String :=
  generateUniqueLoop existing draws fallback 0 100

/-! ## Store operation sequences (for the store-level invariant) -/

/-- One mutating store operation with its argument. -/
inductive StoreOp where
  | add (t : model.Task)
  | update (t : model.Task)
  | delete (id : String)
  | clean
  | save (ts : List model.Task)

/-- Effect of one operation on the stored collection; a failed `update` or
`delete` performs no `Save`, leaving the stored collection unchanged. -/
def applyOp (ts : List model.Task) : StoreOp → List model.Task
  | StoreOp.add t => store.addTask ts t
  | StoreOp.update t =>
    match store.updateTask t ts with
    | Except.ok ts2 => ts2
    | Except.error _ => ts
  | StoreOp.delete i =>
    match store.deleteTask i ts with
    | Except.ok ts2 => ts2
    | Except.error _ => ts
  | StoreOp.clean => (store.cleanTasks ts).2.1
  | StoreOp.save ts2 => ts2

/-- Effect of a sequence of operations. -/
def applyOps (ts : List model.Task) (ops : List StoreOp) : List model.Task :=
  ops.foldl applyOp ts

/-- The store invariant of the specification: every stored task has a
non-empty id and the stored ids are pairwise distinct. -/
def storeInv (ts : List model.Task) : Prop :=
  (∀ t ∈ ts, t.id ≠ "") ∧ (ts.map model.Task.id).Nodup

instance (ts : List model.Task) : Decidable (storeInv ts) := by
  unfold storeInv
  infer_instance

/-- Arguments under which one operation respects the invariant: `add` must
supply a fresh non-empty id (as the command layer does via
`GenerateUnique` over `GetExistingIDs`), `save` must supply a collection
already satisfying the invariant; `update`, `delete` and `clean` need
nothing. -/
def opValid (ts : List model.Task) : StoreOp → Prop
  | StoreOp.add t => t.id ≠ "" ∧ t.id ∉ ts.map model.Task.id
  | StoreOp.save ts2 => storeInv ts2
  | _ => True

/-- Validity of every operation of a sequence, each judged in the state in
which it executes. -/
def opsValid : List model.Task → List StoreOp → Prop
  | _, [] => True
  | ts, op :: ops => opValid ts op ∧ opsValid (applyOp ts op) ops

/-! ## Concrete sample data for witnesses and counterexamples -/

/-- A concrete task used by witnesses. -/
def sampleTask : model.Task :=
  { id := "abc"
    createdAt := ⟨100, 500⟩
    updatedAt := ⟨100, 500⟩
    title := "Test"
    description := none
    type := "task"
    status := "todo"
    labels := []
    notes := [] }

/-- A task with an empty id, as `Store.Add` happily accepts. -/
def emptyIdTask : model.Task :=
  { sampleTask with id := "" }

/-- Two newline-delimited task records: the canonical JSONL shape the
specification describes (timestamps in the embedding's second-granularity
rendering). -/
def jsonlSample : String :=
  "\x7b\"id\":\"a\",\"created_at\":\"0\",\"updated_at\":\"0\",\"title\":\"t\",\"description\":null,\"type\":\"task\",\"status\":\"todo\",\"labels\":[],\"notes\":[]\x7d\n\x7b\"id\":\"b\",\"created_at\":\"1\",\"updated_at\":\"1\",\"title\":\"u\",\"description\":null,\"type\":\"bug\",\"status\":\"progress\",\"labels\":[],\"notes\":[]\x7d\n"

/-- First line of a string (up to the first newline). -/
def firstLine (s : String) : String :=
  String.mk (s.data.takeWhile (fun c => c ≠ '\n'))

/-- Sample open task. -/
def taskA : model.Task :=
  { id := "aaa", createdAt := ⟨10, 0⟩, updatedAt := ⟨10, 0⟩, title := "Todo Task"
    description := none, type := "task", status := "todo", labels := ["frontend"], notes := [] }

/-- Sample done task. -/
def taskB : model.Task :=
  { id := "bbb", createdAt := ⟨20, 0⟩, updatedAt := ⟨20, 0⟩, title := "Done Task"
    description := none, type := "bug", status := "done", labels := ["backend"], notes := [] }

/-- Sample abandoned task. -/
def taskC : model.Task :=
  { id := "ccc", createdAt := ⟨30, 0⟩, updatedAt := ⟨30, 0⟩, title := "Abandon Task"
    description := none, type := "feature", status := "abandon", labels := [], notes := [] }

/-- A stored record carrying `labels: null` and `notes: null`. -/
def fieldsC9 : List (String × Json) :=
  [("id", Json.str "abc"), ("created_at", Json.str "5"), ("updated_at", Json.str "5"),
   ("title", Json.str "Test"), ("description", Json.null), ("type", Json.str "task"),
   ("status", Json.str "todo"), ("labels", Json.null), ("notes", Json.null)]

/-- The task decoded from `fieldsC9`. -/
def tC9val : model.Task :=
  { id := "abc", createdAt := ⟨5, 0⟩, updatedAt := ⟨5, 0⟩, title := "Test"
    description := none, type := "task", status := "todo", labels := [], notes := [] }

/-! ## Theorems -/

theorem charToDigit_digitToChar {d : Nat} (h : d < 10) :
    charToDigit (digitToChar d) = some d := by
  interval_cases d <;> rfl

theorem natToDigitsLE_eq {fuel n : Nat} (h : n ≤ fuel) :
    natToDigitsLE fuel n = (Nat.digits 10 n).map digitToChar := by
  induction fuel generalizing n with
  | zero =>
    interval_cases n
    simp [natToDigitsLE]
  | succ fuel ih =>
    match n with
    | 0 => simp [natToDigitsLE]
    | m + 1 =>
      rw [natToDigitsLE, Nat.digits_def' (by norm_num : 1 < 10) (Nat.succ_pos m)]
      have hdiv : (m + 1) / 10 ≤ fuel := by
        have := Nat.div_lt_self (Nat.succ_pos m) (by norm_num : 1 < 10)
        omega
      rw [ih hdiv, List.map_cons]

theorem parseDigitsAcc_reverse_map (l : List Nat) (hl : ∀ d ∈ l, d < 10) (acc : Nat) :
    parseDigitsAcc (l.map digitToChar) acc
      = some (acc * 10 ^ l.length + Nat.ofDigits 10 l.reverse) := by
  induction l generalizing acc with
  | nil => simp [parseDigitsAcc, Nat.ofDigits]
  | cons d l ih =>
    have hd : d < 10 := hl d (List.mem_cons_self d l)
    have hl' : ∀ x ∈ l, x < 10 := fun x hx => hl x (List.mem_cons_of_mem d hx)
    rw [List.map_cons]
    simp only [parseDigitsAcc, charToDigit_digitToChar hd]
    rw [ih hl']
    have hofd : Nat.ofDigits 10 (d :: l).reverse
        = Nat.ofDigits 10 l.reverse + 10 ^ l.length * d := by
      rw [List.reverse_cons, Nat.ofDigits_append]
      simp [Nat.ofDigits]
    rw [hofd]
    simp only [List.length_cons, pow_succ]
    ring_nf

theorem parseNatStr_natToString (n : Nat) : parseNatStr (natToString n) = some n := by
  by_cases h0 : n = 0
  · subst h0; rfl
  · rw [natToString, if_neg h0, natToDigitsLE_eq (Nat.le_refl n)]
    have hne : Nat.digits 10 n ≠ [] := Nat.digits_ne_nil_iff_ne_zero.mpr h0
    have hrev : ((Nat.digits 10 n).map digitToChar).reverse
        = (Nat.digits 10 n).reverse.map digitToChar := by
      rw [List.map_reverse]
    have hlt : ∀ d ∈ (Nat.digits 10 n).reverse, d < 10 := by
      intro d hd
      exact Nat.digits_lt_base (by norm_num) (List.mem_reverse.mp hd)
    cases hl : (Nat.digits 10 n).reverse.map digitToChar with
    | nil =>
      exfalso
      apply hne
      have hrnil : (Nat.digits 10 n).reverse = [] := by
        cases hrev' : (Nat.digits 10 n).reverse with
        | nil => rfl
        | cons a as => rw [hrev'] at hl; simp at hl
      simpa using congrArg List.reverse hrnil
    | cons c cs =>
      rw [hrev, hl]
      have hstep : parseNatStr (String.mk (c :: cs)) = parseDigitsAcc (c :: cs) 0 := rfl
      rw [hstep, ← hl, parseDigitsAcc_reverse_map _ hlt 0]
      simp [Nat.ofDigits_digits]

theorem parseTimeStr_fmtTime (t : Time) :
    parseTimeStr (fmtTime t) = some ⟨t.sec, 0⟩ := by
  rw [parseTimeStr, fmtTime, parseNatStr_natToString]
  rfl

theorem decodeStrList_map_str (ls : List String) :
    decodeStrList (ls.map Json.str) = Except.ok ls := by
  induction ls with
  | nil => rfl
  | cons s ls ih => simp [decodeStrList, ih]

theorem decodeNote_encodeNote (n : model.Note) :
    decodeNote (encodeNote n) = Except.ok (truncNote n) := by
  simp [decodeNote, encodeNote, decodeNoteFields, getStrField, jLookupLast,
        parseTimeField, parseTimeStr_fmtTime, Except.bind, truncNote, truncTime]

theorem decodeNoteList_map_encode (ns : List model.Note) :
    decodeNoteList (ns.map encodeNote) = Except.ok (ns.map truncNote) := by
  induction ns with
  | nil => rfl
  | cons n ns ih => simp [decodeNoteList, decodeNote_encodeNote, ih]

theorem decodeTask_encodeTask (t : model.Task) :
    decodeTask (encodeTask t) = Except.ok (truncTask t) := by
  cases t with
  | mk idv created updated title desc ty st labels notes =>
    cases desc with
    | none =>
      simp [decodeTask, encodeTask, decodeTaskFields, getStrField, getDescField,
            getLabelsField, getNotesField, jLookupLast, parseTimeField,
            parseTimeStr_fmtTime, Except.bind, truncTask, truncTime,
            decodeStrList_map_str, decodeNoteList_map_encode]
    | some d =>
      simp [decodeTask, encodeTask, decodeTaskFields, getStrField, getDescField,
            getLabelsField, getNotesField, jLookupLast, parseTimeField,
            parseTimeStr_fmtTime, Except.bind, truncTask, truncTime,
            decodeStrList_map_str, decodeNoteList_map_encode]

theorem noteListEqSec_map_trunc (ns : List model.Note) :
    noteListEqSec (ns.map truncNote) ns = true := by
  induction ns with
  | nil => rfl
  | cons n ns ih => simp [noteListEqSec, noteEqSec, truncNote, truncTime, timeEqSec, ih]

theorem taskEqSec_trunc (t : model.Task) : taskEqSec (truncTask t) t = true := by
  simp [taskEqSec, truncTask, truncTime, timeEqSec, noteListEqSec_map_trunc]

/-- Claim C4: for every task built by the entity constructor and then
mutated by any sequence of mutator calls, decoding the JSON encoding of
the task succeeds and reproduces every field exactly, timestamps compared
at second granularity (the decoded task is the original with its
timestamps truncated to whole seconds, and agrees with the original on
every field under second-granularity comparison). -/
theorem claim_C4 (idv title : String) (ty : model.TaskType) (now : Time)
    (muts : List model.Mut) :
    decodeTask (encodeTask (model.applyMuts (model.newTask idv title ty now) muts))
      = Except.ok (truncTask (model.applyMuts (model.newTask idv title ty now) muts))
    ∧ taskEqSec (truncTask (model.applyMuts (model.newTask idv title ty now) muts))
        (model.applyMuts (model.newTask idv title ty now) muts) = true :=
  ⟨decodeTask_encodeTask _, taskEqSec_trunc _⟩

/-- Claim C7: `SetStatus` with any value outside the closed status set
returns the invalid-status error and leaves every field of the task,
including `status` and `updated_at`, unchanged. -/
theorem claim_C7 (t : model.Task) (s : model.Status) (now : Time)
    (h : model.statusIsValid s = false) :
    model.Task.setStatus t s now = (t, some ("invalid status: " ++ s)) := by
  simp [model.Task.setStatus, h]

/-- Witness for claim C7 at the invalid status string `banana`. -/
theorem claim_C7_witness :
    model.Task.setStatus sampleTask "banana" ⟨7, 0⟩
      = (sampleTask, some ("invalid status: " ++ "banana")) :=
  claim_C7 sampleTask "banana" ⟨7, 0⟩ (by decide)

theorem except_bind_ok {α β : Type} {x : Except String α} {f : α → Except String β} {b : β}
    (h : x.bind f = Except.ok b) : ∃ a, x = Except.ok a ∧ f a = Except.ok b := by
  cases x with
  | error e => simp [Except.bind] at h
  | ok a => exact ⟨a, rfl, by simpa [Except.bind] using h⟩

/-- Claim C9: decoding a stored record whose `labels` and/or `notes` field
is JSON `null` yields a task whose labels and notes are empty sequences,
for both fields independently. -/
theorem claim_C9 (fields : List (String × Json)) (t : model.Task)
    (hok : decodeTask (Json.obj fields) = Except.ok t) :
    (jLookupLast fields "labels" = some Json.null → t.labels = [])
    ∧ (jLookupLast fields "notes" = some Json.null → t.notes = []) := by
  have hok' : decodeTaskFields fields = Except.ok t := hok
  rw [decodeTaskFields] at hok'
  obtain ⟨idv, h1, hok'⟩ := except_bind_ok hok'
  obtain ⟨title, h2, hok'⟩ := except_bind_ok hok'
  obtain ⟨desc, h3, hok'⟩ := except_bind_ok hok'
  obtain ⟨ty, h4, hok'⟩ := except_bind_ok hok'
  obtain ⟨st, h5, hok'⟩ := except_bind_ok hok'
  obtain ⟨labels, h6, hok'⟩ := except_bind_ok hok'
  obtain ⟨notes, h7, hok'⟩ := except_bind_ok hok'
  obtain ⟨createdS, h8, hok'⟩ := except_bind_ok hok'
  obtain ⟨updatedS, h9, hok'⟩ := except_bind_ok hok'
  obtain ⟨created, h10, hok'⟩ := except_bind_ok hok'
  obtain ⟨updated, h11, hok'⟩ := except_bind_ok hok'
  have ht : t = { id := idv, createdAt := created, updatedAt := updated, title := title,
                  description := desc, type := ty, status := st,
                  labels := labels, notes := notes } := by
    cases hok'
    rfl
  constructor
  · intro hnull
    rw [getLabelsField, hnull] at h6
    cases h6
    rw [ht]
  · intro hnull
    rw [getNotesField, hnull] at h7
    cases h7
    rw [ht]

/-- Witness for claim C9 at a concrete record with `labels: null` and
`notes: null`. -/
theorem claim_C9_witness : tC9val.labels = [] ∧ tC9val.notes = [] :=
  have h := claim_C9 fieldsC9 tC9val rfl
  ⟨h.1 rfl, h.2 rfl⟩

set_option maxRecDepth 100000 in
/-- Claim C1, evaluated at the failing inputs: a fresh `Init` writes the
two-byte array document `[]` (not a zero-byte file), and `Save` of a
one-task collection writes a pretty-printed JSON array whose first line is
`[` — which is not itself a valid JSON document — rather than one task
object per line. -/
theorem claim_C1 :
    store.initFileContent = "[]"
    ∧ firstLine (store.marshalIndentTasks [sampleTask]) = "["
    ∧ parseJsonValue "[" = none :=
  ⟨rfl, rfl, rfl⟩

set_option maxRecDepth 100000 in
/-- Claim C2, evaluated at the failing inputs: `Load` of a zero-byte file
fails instead of returning zero tasks, and `Load` of a newline-delimited
file of two task records fails instead of returning both records. -/
theorem claim_C2 :
    store.loadTasks "" = Except.error "parsing task file: invalid JSON"
    ∧ store.loadTasks jsonlSample = Except.error "parsing task file: invalid JSON" :=
  ⟨rfl, rfl⟩

set_option maxRecDepth 4000 in
/-- Counterexample to claim C3 as stated: with the finite existing set
containing `aaa` and `aaaa`, the random-source outcome that draws `aaa`
on all 100 attempts and `aaaa` for the 4-character fallback makes
`GenerateUnique` return `aaaa`, a member of the existing set. -/
theorem claim_C3_counterexample :
    generateUnique ["aaa", "aaaa"] (fun _ => "aaa") "aaaa" = "aaaa"
    ∧ ["aaa", "aaaa"].contains "aaaa" = true :=
  ⟨rfl, rfl⟩

theorem genUniqueLoop_fresh (existing : List String) (draws : Nat → String) (fallback : String) :
    ∀ remaining i, (∃ j, j < remaining ∧ existing.contains (draws (i + j)) = false) →
      existing.contains (generateUniqueLoop existing draws fallback i remaining) = false := by
  intro remaining
  induction remaining with
  | zero =>
    intro i h
    obtain ⟨j, hj, _⟩ := h
    omega
  | succ r ih =>
    intro i h
    obtain ⟨j, hj, hfresh⟩ := h
    rw [generateUniqueLoop]
    cases hc : existing.contains (draws i) with
    | false =>
      rw [if_neg (by simp [hc])]
      exact hc
    | true =>
      rw [if_pos (by simp [hc])]
      apply ih
      cases j with
      | zero =>
        rw [Nat.add_zero] at hfresh
        rw [hfresh] at hc
        cases hc
      | succ j2 =>
        refine ⟨j2, by omega, ?_⟩
        have : i + 1 + j2 = i + (j2 + 1) := by omega
        rw [this]
        exact hfresh

/-- Claim C3 (amended): whenever at least one of the first 100 draws of
the random source is outside the existing-id set, `GenerateUnique` returns
an id that is not a member of the set; on the outcome where all 100 draws
collide, it returns the 4-character fallback draw without re-checking it
against the set (which can collide, see the counterexample). -/
theorem claim_C3 (existing : List String) (draws : Nat → String) (fallback : String)
    (h : ∃ i, i < 100 ∧ existing.contains (draws i) = false) :
    existing.contains (generateUnique existing draws fallback) = false := by
  rw [generateUnique]
  apply genUniqueLoop_fresh
  obtain ⟨i, hi, hfresh⟩ := h
  exact ⟨i, hi, by simpa using hfresh⟩

/-- Witness for claim C3 at a concrete set and draw stream. -/
theorem claim_C3_witness :
    List.contains ["abc"] (generateUnique ["abc"] (fun _ => "xyz") "zzzz") = false :=
  claim_C3 ["abc"] (fun _ => "xyz") "zzzz" ⟨0, by norm_num, rfl⟩

theorem cleanScan_eq (ts : List model.Task) :
    store.cleanScan ts
      = (ts.countP store.isClosed, ts.filter (fun t => !(store.isClosed t))) := by
  induction ts with
  | nil => rfl
  | cons t ts ih =>
    cases hc : store.isClosed t with
    | true => simp [store.cleanScan, ih, hc, List.countP_cons, List.filter_cons]
    | false => simp [store.cleanScan, ih, hc, List.countP_cons, List.filter_cons]

theorem countP_isClosed_filter (ts : List model.Task) :
    (ts.filter (fun t => !(store.isClosed t))).countP store.isClosed = 0 := by
  rw [List.countP_eq_zero]
  intro a ha
  have hmem := (List.mem_filter.mp ha).2
  simp only [Bool.not_eq_true'] at hmem
  simp [hmem]

/-- Claim C6: `Clean` removes exactly the tasks whose status is `done` or
`abandon`, returns the number removed, performs no write when that number
is zero, and a second `Clean` with no intervening mutation returns `0` and
leaves the stored collection unchanged. -/
theorem claim_C6 (ts : List model.Task) :
    (store.cleanTasks ts).1 = ts.countP store.isClosed
    ∧ (store.cleanTasks ts).2.1 = ts.filter (fun t => !(store.isClosed t))
    ∧ ((store.cleanTasks ts).1 = 0 ↔ (store.cleanTasks ts).2.2 = false)
    ∧ store.cleanTasks ((store.cleanTasks ts).2.1)
        = (0, (store.cleanTasks ts).2.1, false) := by
  by_cases h0 : ts.countP store.isClosed = 0
  · have hfilter : ts.filter (fun t => !(store.isClosed t)) = ts := by
      apply List.filter_eq_self.mpr
      intro a ha
      have := List.countP_eq_zero.mp h0 a ha
      simpa using this
    have hct : store.cleanTasks ts = (0, ts, false) := by
      rw [store.cleanTasks, cleanScan_eq]
      simp [h0]
    rw [hct]
    exact ⟨h0.symm, hfilter.symm, by simp, hct⟩
  · have hct : store.cleanTasks ts
        = (ts.countP store.isClosed, ts.filter (fun t => !(store.isClosed t)), true) := by
      rw [store.cleanTasks, cleanScan_eq]
      simp [h0]
    rw [hct]
    refine ⟨rfl, rfl, by simp [h0], ?_⟩
    rw [store.cleanTasks, cleanScan_eq]
    simp [countP_isClosed_filter]

/-- Claim C8: `ListFiltered` returns exactly the tasks of `ListSorted`'s
result that satisfy every present criterion, in `ListSorted`'s order, and
a filter with no criteria returns `ListSorted`'s result unchanged. -/
theorem claim_C8 (f : store.Filter) (ts : List model.Task) :
    store.listFiltered f ts = (store.listSorted ts).filter (store.matchesFilter f)
    ∧ store.listFiltered (store.Filter.mk none none none) ts = store.listSorted ts := by
  constructor
  · rw [store.listFiltered]
    cases hc : (f.status.isNone && f.type.isNone && f.label.isNone) with
    | false => simp [hc]
    | true =>
      simp only [hc, if_true]
      obtain ⟨fs, fty, fl⟩ := f
      simp only [Bool.and_eq_true, Option.isNone_iff_eq_none] at hc
      obtain ⟨⟨hs, hty⟩, hl⟩ := hc
      subst hs
      subst hty
      subst hl
      have : ∀ t, store.matchesFilter (store.Filter.mk none none none) t = true := by
        intro t
        simp [store.matchesFilter]
      simp [List.filter_eq_self.mpr fun a _ => this a]
  · simp [store.listFiltered]

theorem storeInv_of_map_id_eq {out ts : List model.Task}
    (hmap : out.map model.Task.id = ts.map model.Task.id) (hinv : storeInv ts) :
    storeInv out := by
  obtain ⟨hne, hnodup⟩ := hinv
  constructor
  · intro u hu
    have hmem : u.id ∈ out.map model.Task.id := List.mem_map_of_mem _ hu
    rw [hmap] at hmem
    obtain ⟨v, hv, hvid⟩ := List.mem_map.mp hmem
    rw [← hvid]
    exact hne v hv
  · rw [hmap]
    exact hnodup

theorem storeInv_sublist {out ts : List model.Task}
    (hsub : out.Sublist ts) (hinv : storeInv ts) : storeInv out := by
  obtain ⟨hne, hnodup⟩ := hinv
  exact ⟨fun u hu => hne u (hsub.subset hu),
         hnodup.sublist (hsub.map model.Task.id)⟩

theorem replaceFirst_map_id {task : model.Task} : ∀ {ts out : List model.Task},
    store.replaceFirst task ts = some out →
    out.map model.Task.id = ts.map model.Task.id := by
  intro ts
  induction ts with
  | nil =>
    intro out h
    cases h
  | cons t ts ih =>
    intro out h
    rw [store.replaceFirst] at h
    by_cases hc : (t.id == task.id) = true
    · rw [if_pos hc] at h
      cases h
      simp [List.map_cons, eq_of_beq hc]
    · rw [if_neg hc] at h
      cases hr : store.replaceFirst task ts with
      | none =>
        rw [hr] at h
        cases h
      | some o =>
        rw [hr] at h
        simp only [Option.map_some'] at h
        cases h
        simp [List.map_cons, ih hr]

theorem deleteScan_eq (i : String) (ts : List model.Task) :
    store.deleteScan i ts
      = (ts.any (fun t => t.id == i), ts.filter (fun t => !(t.id == i))) := by
  induction ts with
  | nil => rfl
  | cons t ts ih =>
    cases hc : (t.id == i) with
    | true => simp [store.deleteScan, ih, hc, List.any_cons, List.filter_cons]
    | false => simp [store.deleteScan, ih, hc, List.any_cons, List.filter_cons]

theorem deleteTask_ok {i : String} {ts out : List model.Task}
    (h : store.deleteTask i ts = Except.ok out) :
    out = ts.filter (fun t => !(t.id == i)) := by
  simp only [store.deleteTask, deleteScan_eq] at h
  by_cases ha : ts.any (fun t => t.id == i) = true
  · rw [if_pos ha] at h
    cases h
    rfl
  · rw [if_neg ha] at h
    cases h

theorem cleanTasks_kept (ts : List model.Task) :
    (store.cleanTasks ts).2.1 = ts.filter (fun t => !(store.isClosed t)) := by
  rw [store.cleanTasks, cleanScan_eq]
  by_cases h0 : ts.countP store.isClosed = 0
  · simp only [h0, if_pos rfl]
    symm
    apply List.filter_eq_self.mpr
    intro a ha
    have := List.countP_eq_zero.mp h0 a ha
    simpa using this
  · simp [h0]

theorem storeInv_applyOp {ts : List model.Task} {op : StoreOp}
    (hinv : storeInv ts) (hop : opValid ts op) : storeInv (applyOp ts op) := by
  cases op with
  | add t =>
    obtain ⟨hne, hnodup⟩ := hinv
    obtain ⟨hid, hmem⟩ := hop
    constructor
    · intro u hu
      rcases List.mem_append.mp hu with h | h
      · exact hne u h
      · simp only [List.mem_singleton] at h
        rw [h]
        exact hid
    · show ((ts ++ [t]).map model.Task.id).Nodup
      rw [List.map_append]
      simp [List.nodup_append, hnodup, hmem]
  | update t =>
    rw [applyOp]
    cases hu : store.updateTask t ts with
    | error e => exact hinv
    | ok ts2 =>
      rw [store.updateTask] at hu
      cases hr : store.replaceFirst t ts with
      | none =>
        rw [hr] at hu
        cases hu
      | some o =>
        rw [hr] at hu
        cases hu
        exact storeInv_of_map_id_eq (replaceFirst_map_id hr) hinv
  | delete i =>
    rw [applyOp]
    cases hd : store.deleteTask i ts with
    | error e => exact hinv
    | ok ts2 =>
      rw [deleteTask_ok hd]
      exact storeInv_sublist (List.filter_sublist ts) hinv
  | clean =>
    rw [applyOp]
    rw [cleanTasks_kept]
    exact storeInv_sublist (List.filter_sublist ts) hinv
  | save ts2 => exact hop

theorem storeInv_applyOps : ∀ (ops : List StoreOp) (ts : List model.Task),
    storeInv ts → opsValid ts ops → storeInv (applyOps ts ops) := by
  intro ops
  induction ops with
  | nil =>
    intro ts h _
    exact h
  | cons op ops ih =>
    intro ts hinv hval
    obtain ⟨hop, hops⟩ := hval
    rw [applyOps, List.foldl_cons]
    exact ih _ (storeInv_applyOp hinv hop) hops

/-- Counterexample to claim C5 as stated: starting from the empty store,
the operation sequence that adds the same empty-id task twice yields a
stored collection violating both the non-empty-id and the distinct-id
parts of the invariant, because `Store.Add` appends its argument without
any validation. -/
theorem claim_C5_counterexample :
    storeInv ([] : List model.Task)
    ∧ ¬ storeInv (applyOps [] [StoreOp.add emptyIdTask, StoreOp.add emptyIdTask]) := by
  decide

/-- Claim C5 (amended): starting from the empty store produced by `init`,
every operation sequence in which each `add` supplies a task with a
non-empty id not already stored (as the command layer arranges via
`GenerateUnique` over `GetExistingIDs`) and each `save` supplies a
collection already satisfying the invariant, preserves the invariant that
every stored task has a non-empty id and the stored ids are pairwise
distinct; `update`, `delete` and `clean` preserve it unconditionally. -/
theorem claim_C5 (ops : List StoreOp) (h : opsValid [] ops) :
    storeInv (applyOps [] ops) :=
  storeInv_applyOps ops [] (by decide) h

/-- Witness for claim C5 at a concrete one-operation sequence. -/
theorem claim_C5_witness : storeInv (applyOps [] [StoreOp.add sampleTask]) :=
  claim_C5 [StoreOp.add sampleTask] ⟨⟨by decide, by decide⟩, trivial⟩

theorem replaceFirst_eq_set {task : model.Task} : ∀ {ts out : List model.Task},
    store.replaceFirst task ts = some out →
    out = ts.set (ts.findIdx (fun t => t.id == task.id)) task := by
  intro ts
  induction ts with
  | nil =>
    intro out h
    cases h
  | cons t ts ih =>
    intro out h
    rw [store.replaceFirst] at h
    by_cases hc : (t.id == task.id) = true
    · rw [if_pos hc] at h
      cases h
      simp [List.findIdx_cons, hc]
    · rw [if_neg hc] at h
      cases hr : store.replaceFirst task ts with
      | none =>
        rw [hr] at h
        cases h
      | some o =>
        rw [hr] at h
        simp only [Option.map_some'] at h
        cases h
        simp only [List.findIdx_cons, hc, cond_false, List.set_cons_succ]
        rw [ih hr]

/-- Claim C10: `Delete` keeps exactly the non-matching tasks in their
original relative order, `Update` replaces the first matching entry in
place at its existing index leaving every other entry untouched, and
`Clean` keeps exactly the non-closed tasks in their original relative
order. -/
theorem claim_C10 (i : String) (task : model.Task) (ts : List model.Task) :
    (∀ out, store.deleteTask i ts = Except.ok out →
        out = ts.filter (fun t => !(t.id == i)))
    ∧ (∀ out, store.updateTask task ts = Except.ok out →
        out = ts.set (ts.findIdx (fun t => t.id == task.id)) task)
    ∧ (store.cleanTasks ts).2.1 = ts.filter (fun t => !(store.isClosed t)) := by
  refine ⟨fun out h => deleteTask_ok h, fun out h => ?_, cleanTasks_kept ts⟩
  rw [store.updateTask] at h
  cases hr : store.replaceFirst task ts with
  | none =>
    rw [hr] at h
    cases h
  | some o =>
    rw [hr] at h
    cases h
    exact replaceFirst_eq_set hr

/-- Witness for claim C10: deleting `bbb` from a three-task store keeps
exactly the other two tasks in order. -/
theorem claim_C10_witness :
    [taskA, taskC] = [taskA, taskB, taskC].filter (fun t => !(t.id == "bbb")) :=
  (claim_C10 "bbb" taskB [taskA, taskB, taskC]).1 [taskA, taskC] rfl
